import Mathlib

/-!
Verification development for the loose-diff utility (src/ldiff.py).

The program reads two text files, strips all trailing whitespace from each
content with Python's str.rstrip(), compares the normalized contents, and
when they differ prints a unified diff produced by difflib.unified_diff
over the line sequences obtained with str.splitlines().

We model file contents and printed lines as Lean Strings, the file system
as a function from paths to read results, and the observable behaviour of
the program as the list of strings passed to print (one entry per print
call) plus the process exit code.
-/

namespace LDiff

/-- The characters for which Python's str.isspace() returns True; these are
exactly the characters stripped by str.rstrip() with no argument. -/
def pyIsSpace (c : Char) : Bool :=
  let n := c.toNat
  (0x09 ≤ n && n ≤ 0x0d) || n == 0x20 ||
  (0x1c ≤ n && n ≤ 0x1f) || n == 0x85 || n == 0xa0 || n == 0x1680 ||
  (0x2000 ≤ n && n ≤ 0x200a) || n == 0x2028 || n == 0x2029 ||
  n == 0x202f || n == 0x205f || n == 0x3000

/-- Python's s.rstrip() on the character list of a string: remove the
longest suffix of whitespace characters. -/
def listRstrip (s : List Char) : List Char :=
  (s.reverse.dropWhile pyIsSpace).reverse

/-- `f.read().rstrip()` — the normalization the loader applies on success. -/
def pyRstrip (s : String) : String :=
  String.mk (listRstrip s.data)

/-- The characters Python's str.splitlines() treats as line boundaries
(besides the two-character boundary CR LF). -/
def pyIsLineBreak (c : Char) : Bool :=
  let n := c.toNat
  (0x0a ≤ n && n ≤ 0x0d) || (0x1c ≤ n && n ≤ 0x1e) ||
  n == 0x85 || n == 0x2028 || n == 0x2029

/-- Python's str.splitlines() on a character list; `acc` holds the
characters of the current (unfinished) line in reverse. CR LF counts as a
single boundary; boundaries are discarded; a trailing unfinished line is
emitted only when nonempty (so a final boundary adds no empty line). -/
def splitlinesAux : List Char → List Char → List (List Char)
  | [], acc => if acc.isEmpty then [] else [acc.reverse]
  | '\r' :: '\n' :: rest, acc => acc.reverse :: splitlinesAux rest []
  | c :: rest, acc =>
    if pyIsLineBreak c then acc.reverse :: splitlinesAux rest []
    else splitlinesAux rest (c :: acc)

/-- `content.splitlines()` as used at src/ldiff.py lines 90-91. -/
def pySplitlines (s : String) : List String :=
  (splitlinesAux s.data []).map String.mk

/-- The outcome of opening and reading one file: success with its full
decoded text, FileNotFoundError, or any other OSError/decode error with
the message Python would interpolate for the exception `e`. -/
inductive ReadResult where
  | ok (content : String)
  | notFound
  | otherError (msg : String)
deriving DecidableEq

/-- A file system: what reading each path yields. -/
def FS := String → ReadResult

/-- Message printed on FileNotFoundError (src/ldiff.py line 48). -/
def notFoundMsg (path : String) : String :=
  "Error: 파일을 찾을 수 없습니다 - '" ++ path ++ "'"

/-- Message printed on any other exception (src/ldiff.py line 54). -/
def readErrMsg (path : String) (e : String) : String :=
  "Error: 파일을 읽는 중 오류 발생 - '" ++ path ++ "': " ++ e

/-- read_file_content_loosely (src/ldiff.py lines 22-55): returns the
rstrip-normalized content on success and None on failure, together with
the list of lines printed while running (one per print call). -/
def read_file_content_loosely (fs : FS) (file_path : String) :
    Option String × List String :=
  match fs file_path with
  | .ok content => (some (pyRstrip content), [])
  | .notFound => (none, [notFoundMsg file_path])
  | .otherError e => (none, [readErrMsg file_path e])

end LDiff

/-!
A model of CPython's difflib.SequenceMatcher as instantiated by
difflib.unified_diff(a, b, ...): isjunk=None and autojunk=True. Since
isjunk is None the junk set bjunk is empty; the popularity heuristic
(autojunk) only removes entries from the b2j index.
-/

namespace Difflib

variable {α : Type} [DecidableEq α] [Inhabited α]

/-- The b2j dictionary before the autojunk pass: the ascending list of
indices at which `x` occurs in `b` (the scan of b appends each index to
its element's entry in order). -/
def b2jRaw (b : List α) (x : α) : List Nat :=
  (List.range b.length).filter (fun j => decide (b.getD j default = x))

/-- The b2j dictionary after the autojunk pass: when b has at least 200
elements, elements occurring more than length/100 + 1 times are popular
and deleted from the index (b2j.get then yields the empty list). -/
def b2j (b : List α) (x : α) : List Nat :=
  let idxs := b2jRaw b x
  if 200 ≤ b.length ∧ b.length / 100 + 1 < idxs.length then [] else idxs

/-- The inner `for j in b2j.get(a[i], nothing)` loop of
find_longest_match: `j2len` is the previous row (default 0), `newj2len`
the row being built, `best` the running (besti, bestj, bestsize). Entries
with j < blo are skipped; the first j ≥ bhi breaks the loop. -/
def fldmInner (blo bhi i : Nat) (j2len : Nat → Nat) :
    List Nat → (Nat → Nat) → Nat × Nat × Nat → (Nat → Nat) × (Nat × Nat × Nat)
  | [], newj2len, best => (newj2len, best)
  | j :: js, newj2len, best =>
    if j < blo then fldmInner blo bhi i j2len js newj2len best
    else if bhi ≤ j then (newj2len, best)
    else
      let k := (if j = 0 then 0 else j2len (j - 1)) + 1
      let newj2len' : Nat → Nat := fun x => if x = j then k else newj2len x
      let best' := if best.2.2 < k then (i + 1 - k, j + 1 - k, k) else best
      fldmInner blo bhi i j2len js newj2len' best'

/-- The outer `for i in range(alo, ahi)` loop of find_longest_match,
threading the j2len row and the running best through the rows. -/
def fldmRows (a : List α) (b2jf : α → List Nat) (blo bhi : Nat) :
    List Nat → (Nat → Nat) → Nat × Nat × Nat → Nat × Nat × Nat
  | [], _, best => best
  | i :: is, j2len, best =>
    let step := fldmInner blo bhi i j2len (b2jf (a.getD i default)) (fun _ => 0) best
    fldmRows a b2jf blo bhi is step.1 step.2

/-- The first while loop after the dictionary loop: extend the best block
to the left over equal (non-junk; bjunk is empty here) elements. Each
iteration decrements besti, which stays ≥ alo, so running the loop with
fuel = besti computes the loop's fixpoint: when the fuel is exhausted
besti has reached 0 and the guard alo &lt; besti is false anyway. -/
def extendLeft (a b : List α) (alo blo : Nat) :
    Nat → Nat → Nat → Nat → Nat × Nat × Nat
  | 0, besti, bestj, bestsize => (besti, bestj, bestsize)
  | fuel + 1, besti, bestj, bestsize =>
    if alo < besti ∧ blo < bestj ∧
        a.getD (besti - 1) default = b.getD (bestj - 1) default then
      extendLeft a b alo blo fuel (besti - 1) (bestj - 1) (bestsize + 1)
    else (besti, bestj, bestsize)

/-- The second while loop: extend the best block to the right over equal
elements. Each iteration increments bestsize, which stays ≤ ahi, so fuel
= ahi - bestsize computes the fixpoint: at fuel 0, bestsize ≥ ahi and the
guard besti + bestsize &lt; ahi is false anyway. -/
def extendRight (a b : List α) (ahi bhi : Nat) :
    Nat → Nat → Nat → Nat → Nat × Nat × Nat
  | 0, besti, bestj, bestsize => (besti, bestj, bestsize)
  | fuel + 1, besti, bestj, bestsize =>
    if besti + bestsize < ahi ∧ bestj + bestsize < bhi ∧
        a.getD (besti + bestsize) default = b.getD (bestj + bestsize) default then
      extendRight a b ahi bhi fuel besti bestj (bestsize + 1)
    else (besti, bestj, bestsize)

/-- SequenceMatcher.find_longest_match(alo, ahi, blo, bhi) with
isjunk=None: the dictionary loop, then the two non-junk extension passes.
The two junk extension passes of the source require isbjunk to hold of a
neighbour and are no-ops here because bjunk is empty. -/
def find_longest_match (a b : List α) (b2jf : α → List Nat)
    (alo ahi blo bhi : Nat) : Nat × Nat × Nat :=
  let d := fldmRows a b2jf blo bhi (List.range' alo (ahi - alo))
    (fun _ => 0) (alo, blo, 0)
  let l := extendLeft a b alo blo d.1 d.1 d.2.1 d.2.2
  extendRight a b ahi bhi (ahi - l.2.2) l.1 l.2.1 l.2.2

/-- The work-queue recursion of get_matching_blocks, collected in index
order. (The source pushes subranges on a stack and sorts the collected
blocks at the end; since the blocks of the two subranges lie strictly left
and right of the found block, in-order collection yields the same sorted
list.) `fuel` bounds the depth; every recursive call strictly shrinks
ahi - alo, so fuel ≥ ahi - alo reaches the fixpoint. -/
def matchingBlocksRec (a b : List α) (b2jf : α → List Nat) :
    Nat → Nat → Nat → Nat → Nat → List (Nat × Nat × Nat)
  | 0, _, _, _, _ => []
  | fuel + 1, alo, ahi, blo, bhi =>
    let m := find_longest_match a b b2jf alo ahi blo bhi
    let i := m.1
    let j := m.2.1
    let k := m.2.2
    if k = 0 then []
    else
      (if alo < i ∧ blo < j then
        matchingBlocksRec a b b2jf fuel alo i blo j else []) ++
      [(i, j, k)] ++
      (if i + k < ahi ∧ j + k < bhi then
        matchingBlocksRec a b b2jf fuel (i + k) ahi (j + k) bhi else [])

/-- The adjacency-coalescing pass at the end of get_matching_blocks: merge
blocks (i1,j1,k1), (i2,j2,k2) with i1+k1 = i2 and j1+k1 = j2; the carried
block starts as the phantom (0,0,0) and is emitted only when k1 is not 0. -/
def coalesceBlocks : Nat × Nat × Nat → List (Nat × Nat × Nat) → List (Nat × Nat × Nat)
  | (i1, j1, k1), [] => if k1 ≠ 0 then [(i1, j1, k1)] else []
  | (i1, j1, k1), (i2, j2, k2) :: rest =>
    if i1 + k1 = i2 ∧ j1 + k1 = j2 then coalesceBlocks (i1, j1, k1 + k2) rest
    else (if k1 ≠ 0 then [(i1, j1, k1)] else []) ++ coalesceBlocks (i2, j2, k2) rest

/-- SequenceMatcher.get_matching_blocks: recursive longest-match blocks,
coalesced, with the sentinel (len(a), len(b), 0) appended. -/
def get_matching_blocks (a b : List α) : List (Nat × Nat × Nat) :=
  let b2jf := b2j b
  coalesceBlocks (0, 0, 0)
    (matchingBlocksRec a b b2jf (a.length + 1) 0 a.length 0 b.length) ++
  [(a.length, b.length, 0)]

/-- The five opcode tags of SequenceMatcher.get_opcodes. -/
inductive Tag where
  | replace
  | delete
  | insert
  | equal
deriving DecidableEq

instance : Inhabited Tag := ⟨Tag.equal⟩

/-- One opcode (tag, i1, i2, j1, j2). -/
abbrev Opcode := Tag × Nat × Nat × Nat × Nat

/-- The loop of get_opcodes over the matching blocks, threading the
cursor (i, j). -/
def opcodesLoop : Nat → Nat → List (Nat × Nat × Nat) → List Opcode
  | _, _, [] => []
  | i, j, (ai, bj, size) :: rest =>
    (if i < ai ∧ j < bj then [(Tag.replace, i, ai, j, bj)]
     else if i < ai then [(Tag.delete, i, ai, j, bj)]
     else if j < bj then [(Tag.insert, i, ai, j, bj)]
     else []) ++
    (if size ≠ 0 then [(Tag.equal, ai, ai + size, bj, bj + size)] else []) ++
    opcodesLoop (ai + size) (bj + size) rest

/-- SequenceMatcher.get_opcodes. -/
def get_opcodes (a b : List α) : List Opcode :=
  opcodesLoop 0 0 (get_matching_blocks a b)

/-- get_grouped_opcodes: clip a leading equal opcode to the last n lines
of its range. -/
def adjustFirst (n : Nat) : List Opcode → List Opcode
  | (Tag.equal, i1, i2, j1, j2) :: rest =>
    (Tag.equal, max i1 (i2 - n), i2, max j1 (j2 - n), j2) :: rest
  | codes => codes

/-- get_grouped_opcodes: clip a trailing equal opcode to the first n lines
of its range. -/
def adjustLast (n : Nat) (codes : List Opcode) : List Opcode :=
  match codes.getLast? with
  | some (Tag.equal, i1, _, j1, _) =>
    codes.dropLast ++
      [(Tag.equal, i1, min (codes.getLastD default).2.2.1 (i1 + n), j1,
        min (codes.getLastD default).2.2.2.2 (j1 + n))]
  | _ => codes

/-- The grouping loop of get_grouped_opcodes: a large internal equal run
(longer than 2n) closes the current group and opens the next one. The
final group is emitted unless it is empty or a single equal opcode. -/
def groupLoop (n : Nat) : List Opcode → List Opcode → List (List Opcode)
  | [], group =>
    if group ≠ [] ∧ ¬(group.length = 1 ∧ (group.headD default).1 = Tag.equal)
    then [group] else []
  | (tag, i1, i2, j1, j2) :: rest, group =>
    if tag = Tag.equal ∧ n + n < i2 - i1 then
      (group ++ [(Tag.equal, i1, min i2 (i1 + n), j1, min j2 (j1 + n))]) ::
        groupLoop n rest [(Tag.equal, max i1 (i2 - n), i2, max j1 (j2 - n), j2)]
    else groupLoop n rest (group ++ [(tag, i1, i2, j1, j2)])

/-- SequenceMatcher.get_grouped_opcodes(n): when get_opcodes is empty the
dummy [("equal", 0, 1, 0, 1)] is used; the first and last equal opcodes
are clipped to n context lines; then the groups are formed. -/
def get_grouped_opcodes (a b : List α) (n : Nat) : List (List Opcode) :=
  let codes := get_opcodes a b
  let codes := if codes.isEmpty then [(Tag.equal, 0, 1, 0, 1)] else codes
  groupLoop n (adjustLast n (adjustFirst n codes)) []

end Difflib

namespace LDiff

open Difflib

/-- Python's slice l[i1:i2] for 0 ≤ i1, i2 (clamped to the length). -/
def sliceList {α : Type} (l : List α) (i1 i2 : Nat) : List α :=
  (l.take i2).drop i1

/-- difflib._format_range_unified: the "start,length" piece of a hunk
header, with the length omitted when it is 1 and the start not advanced
when the range is empty. -/
def formatRangeUnified (start stop : Nat) : String :=
  let beginning := start + 1
  let length := stop - start
  if length = 1 then toString beginning
  else if length = 0 then toString (beginning - 1) ++ "," ++ toString length
  else toString beginning ++ "," ++ toString length

/-- The lines unified_diff yields for one opcode of a group. -/
def opcodeLines (a b : List String) : Opcode → List String
  | (Tag.equal, i1, i2, _, _) =>
    (sliceList a i1 i2).map (fun line => " " ++ line)
  | (Tag.replace, i1, i2, j1, j2) =>
    (sliceList a i1 i2).map (fun line => "-" ++ line) ++
    (sliceList b j1 j2).map (fun line => "+" ++ line)
  | (Tag.delete, i1, i2, _, _) =>
    (sliceList a i1 i2).map (fun line => "-" ++ line)
  | (Tag.insert, _, _, j1, j2) =>
    (sliceList b j1 j2).map (fun line => "+" ++ line)

/-- The lines unified_diff yields for one group: the @@ hunk header from
the first and last opcode, then the per-opcode lines. -/
def groupLines (a b : List String) (group : List Opcode) : List String :=
  let first := group.headD default
  let last := group.getLastD default
  ("@@ -" ++ formatRangeUnified first.2.1 last.2.2.1 ++
   " +" ++ formatRangeUnified first.2.2.2.1 last.2.2.2.2 ++ " @@") ::
  (group.map (opcodeLines a b)).flatten

/-- difflib.unified_diff(a, b, fromfile, tofile, n, lineterm='') as the
list of yielded lines: the --- and +++ headers are yielded before the
first group only (so an empty grouping yields nothing). -/
def unified_diff (a b : List String) (fromfile tofile : String) (n : Nat) :
    List String :=
  match get_grouped_opcodes a b n with
  | [] => []
  | groups => ("--- " ++ fromfile) :: ("+++ " ++ tofile) ::
      (groups.map (groupLines a b)).flatten

/-- src/ldiff.py line 81: the equivalence report. -/
def equivMsg : String := "✅ 파일이 실질적으로 동일합니다 (끝 공백/줄바꿈 무시)."

/-- src/ldiff.py line 86: the difference warning (the printed string keeps
its leading newline). -/
def diffWarnMsg : String := "\n⚠️  파일 내용에 차이가 있습니다:"

/-- src/ldiff.py lines 64-67: the banner naming both compared paths. -/
def banner (file1_path file2_path : String) : List String :=
  ["--- Loose Diff ---------------------------------",
   " a: " ++ file1_path,
   " b: " ++ file2_path,
   "----------------------------------------------"]

/-- loose_diff (src/ldiff.py lines 57-105) as the list of printed strings:
banner, loader output for both files, then nothing (a load failed), the
equivalence report, or the warning followed by the unified diff of the
splitlines of the two normalized contents with fromfile a/&lt;path1&gt; and
tofile b/&lt;path2&gt; and the default n=3 context. -/
def loose_diff (fs : FS) (file1_path file2_path : String) : List String :=
  banner file1_path file2_path ++
  (let r1 := read_file_content_loosely fs file1_path
   let r2 := read_file_content_loosely fs file2_path
   r1.2 ++ r2.2 ++
   match r1.1, r2.1 with
   | some content1, some content2 =>
     if content1 = content2 then [equivMsg]
     else diffWarnMsg ::
       unified_diff (pySplitlines content1) (pySplitlines content2)
         ("a/" ++ file1_path) ("b/" ++ file2_path) 3
   | _, _ => [])

/-- src/ldiff.py line 116: the usage message. -/
def usageMsg : String := "사용법: python loose_diff.py <파일1_경로> <파일2_경로>"

/-- The __main__ block (src/ldiff.py lines 110-125): argv includes the
script name, so exactly two positional arguments means argv has length 3.
Returns the printed lines and the process exit status (sys.exit(1) on a
wrong argument count, normal termination status 0 otherwise). -/
def main_run (fs : FS) (argv : List String) : List String × Nat :=
  if argv.length ≠ 3 then ([usageMsg], 1)
  else (loose_diff fs (argv.getD 1 "") (argv.getD 2 ""), 0)

/-- A two-file file system used to instantiate the general theorems. -/
def exampleFS : FS := fun p =>
  if p = "a.txt" then .ok "foo\nbar\n"
  else if p = "b.txt" then .ok "foo\nbaz\n"
  else .notFound

/-- A file system whose two files differ only in CR LF versus LF internal
line separators. -/
def crlfFS : FS := fun p =>
  if p = "a.txt" then .ok "a\r\nb"
  else if p = "b.txt" then .ok "a\nb"
  else .notFound

end LDiff

namespace LDiff

/-! ### Normalization lemmas -/

theorem dropWhile_dropWhile (p : Char → Bool) (l : List Char) :
    List.dropWhile p (List.dropWhile p l) = List.dropWhile p l := by
  induction l with
  | nil => rfl
  | cons c l ih =>
    rw [List.dropWhile_cons]
    by_cases h : p c
    · rw [if_pos h]; exact ih
    · rw [if_neg h, List.dropWhile_cons, if_neg h]

theorem dropWhile_head_all (p : Char → Bool) (l : List Char) :
    ((List.dropWhile p l).head?.all fun x => !p x) = true := by
  induction l with
  | nil => rfl
  | cons c l ih =>
    rw [List.dropWhile_cons]
    by_cases h : p c
    · rw [if_pos h]; exact ih
    · rw [if_neg h]; simp [h]

theorem listRstrip_append_space (c w : List Char)
    (hW : ∀ x ∈ w, pyIsSpace x = true) :
    listRstrip (c ++ w) = listRstrip c := by
  unfold listRstrip
  rw [List.reverse_append, List.dropWhile_append]
  have h : w.reverse.dropWhile pyIsSpace = [] :=
    List.dropWhile_eq_nil_iff.mpr fun x hx => hW x (List.mem_reverse.mp hx)
  rw [h]
  rfl

/-- C2: appending a whitespace-only suffix does not change the
normalization (rstrip) of a string. -/
theorem rstrip_append_whitespace (C W : String)
    (hW : ∀ c ∈ W.data, pyIsSpace c = true) :
    pyRstrip (C ++ W) = pyRstrip C := by
  unfold pyRstrip
  rw [String.data_append, listRstrip_append_space C.data W.data hW]

/-- Witness for C2 at C = "ab", W = " \n". -/
theorem rstrip_append_whitespace_witness :
    pyRstrip ("ab" ++ " \t\n") = pyRstrip "ab" :=
  rstrip_append_whitespace "ab" " \t\n" (by decide)

/-- C3: the normalized content is a prefix of the original obtained by
removing only a whitespace suffix (so everything up to and including the
final non-whitespace character is unchanged), and a string with no
trailing whitespace is returned unchanged. -/
theorem rstrip_prefix_decomposition (C : String) :
    (∃ t, C.data = (pyRstrip C).data ++ t ∧ ∀ c ∈ t, pyIsSpace c = true) ∧
    ((C.data.getLast?.all fun c => !pyIsSpace c) = true → pyRstrip C = C) := by
  constructor
  · refine ⟨(C.data.reverse.takeWhile pyIsSpace).reverse, ?_, ?_⟩
    · conv_lhs =>
        rw [← C.data.reverse_reverse,
          ← List.takeWhile_append_dropWhile pyIsSpace C.data.reverse]
      rw [List.reverse_append]
      rfl
    · intro c hc
      exact List.mem_takeWhile_imp (List.mem_reverse.mp hc)
  · intro h
    have hh : (C.data.reverse.head?.all fun c => !pyIsSpace c) = true := by
      rwa [List.head?_reverse]
    have : C.data.reverse.dropWhile pyIsSpace = C.data.reverse := by
      cases hrev : C.data.reverse with
      | nil => rfl
      | cons c rest =>
        rw [hrev] at hh
        simp only [List.head?_cons, Option.all_some, Bool.not_eq_true'] at hh
        rw [List.dropWhile_cons, if_neg (by simp [hh])]
    show String.mk (listRstrip C.data) = C
    rw [listRstrip, this, List.reverse_reverse]

/-- Witness for C3 at C = "ab": the decomposition and, since "ab" has no
trailing whitespace, rstrip leaves it unchanged. -/
theorem rstrip_prefix_decomposition_witness :
    (∃ t, "ab".data = (pyRstrip "ab").data ++ t ∧ ∀ c ∈ t, pyIsSpace c = true) ∧
    pyRstrip "ab" = "ab" :=
  ⟨(rstrip_prefix_decomposition "ab").1,
   (rstrip_prefix_decomposition "ab").2 (by decide)⟩

/-- C10: normalization is idempotent, and every content the loader
returns successfully has no trailing whitespace character. -/
theorem rstrip_idempotent :
    (∀ C : String, pyRstrip (pyRstrip C) = pyRstrip C) ∧
    (∀ (fs : FS) (p c : String),
      (read_file_content_loosely fs p).1 = some c →
      (c.data.getLast?.all fun ch => !pyIsSpace ch) = true) := by
  constructor
  · intro C
    show String.mk (listRstrip (listRstrip C.data)) = String.mk (listRstrip C.data)
    unfold listRstrip
    rw [List.reverse_reverse, dropWhile_dropWhile]
  · intro fs p c h
    unfold read_file_content_loosely at h
    cases hp : fs p with
    | ok content =>
      rw [hp] at h
      simp only [Option.some.injEq] at h
      subst h
      show ((listRstrip content.data).getLast?.all fun ch => !pyIsSpace ch) = true
      rw [listRstrip, List.getLast?_reverse]
      exact dropWhile_head_all pyIsSpace content.data.reverse
    | notFound => rw [hp] at h; simp at h
    | otherError e => rw [hp] at h; simp at h

/-- Witness for C10: idempotence at "a \t" and absence of trailing
whitespace for the content loaded from a constant file system. -/
theorem rstrip_idempotent_witness :
    pyRstrip (pyRstrip "a \t") = pyRstrip "a \t" ∧
    ((pyRstrip "a \t").data.getLast?.all fun ch => !pyIsSpace ch) = true :=
  ⟨rstrip_idempotent.1 "a \t",
   rstrip_idempotent.2 (fun _ => ReadResult.ok "a \t") "p" (pyRstrip "a \t") rfl⟩

/-! ### Loader error handling and control flow -/

/-- C4: each loader failure is converted to a printed diagnostic plus the
sentinel None: FileNotFoundError prints the not-found message naming the
path, any other error prints the message naming the path and the cause,
and None is returned exactly in these two cases (so no error escapes the
loader and the comparison routine is total). -/
theorem loader_error_handling (fs : FS) (path : String) :
    (fs path = .notFound →
      read_file_content_loosely fs path = (none, [notFoundMsg path]) ∧
      ∃ pre post, notFoundMsg path = pre ++ path ++ post) ∧
    (∀ e, fs path = .otherError e →
      read_file_content_loosely fs path = (none, [readErrMsg path e]) ∧
      ∃ pre mid, readErrMsg path e = pre ++ path ++ mid ++ e) ∧
    ((read_file_content_loosely fs path).1 = none ↔
      fs path = .notFound ∨ ∃ e, fs path = .otherError e) := by
  refine ⟨fun h => ?_, fun e h => ?_, ?_⟩
  · rw [read_file_content_loosely, h]
    exact ⟨rfl, "Error: 파일을 찾을 수 없습니다 - '", "'", rfl⟩
  · rw [read_file_content_loosely, h]
    exact ⟨rfl, "Error: 파일을 읽는 중 오류 발생 - '", "': ", rfl⟩
  · rw [read_file_content_loosely]
    cases h : fs path <;> simp

/-- Witness for C4 on a missing file and on a permission-style error. -/
theorem loader_error_handling_witness :
    (read_file_content_loosely (fun _ => ReadResult.notFound) "f.txt" =
        (none, [notFoundMsg "f.txt"]) ∧
      ∃ pre post, notFoundMsg "f.txt" = pre ++ "f.txt" ++ post) ∧
    (read_file_content_loosely (fun _ => ReadResult.otherError "Permission denied") "f.txt" =
        (none, [readErrMsg "f.txt" "Permission denied"]) ∧
      ∃ pre mid, readErrMsg "f.txt" "Permission denied" =
        pre ++ "f.txt" ++ mid ++ "Permission denied") :=
  ⟨(loader_error_handling (fun _ => ReadResult.notFound) "f.txt").1 rfl,
   (loader_error_handling (fun _ => ReadResult.otherError "Permission denied")
      "f.txt").2.1 "Permission denied" rfl⟩

/-- C5: when either load fails, loose_diff prints only the banner and the
loader diagnostics — no equivalence report, no warning, no diff lines. -/
theorem load_failure_stops (fs : FS) (p1 p2 : String)
    (h : (read_file_content_loosely fs p1).1 = none ∨
      (read_file_content_loosely fs p2).1 = none) :
    loose_diff fs p1 p2 = banner p1 p2 ++
      (read_file_content_loosely fs p1).2 ++ (read_file_content_loosely fs p2).2 := by
  simp only [loose_diff]
  rcases h with h | h
  · rw [h]
    cases (read_file_content_loosely fs p2).1 <;> simp
  · rw [h]
    cases (read_file_content_loosely fs p1).1 <;> simp

/-- Witness for C5: one missing file alongside one readable file. -/
theorem load_failure_stops_witness :
    loose_diff exampleFS "a.txt" "missing.txt" = banner "a.txt" "missing.txt" ++
      (read_file_content_loosely exampleFS "a.txt").2 ++
      (read_file_content_loosely exampleFS "missing.txt").2 :=
  load_failure_stops exampleFS "a.txt" "missing.txt" (Or.inr rfl)

/-- C6: the usage message is printed and the process exits with status 1
exactly when argv does not consist of the script name plus two positional
arguments; with exactly two arguments the comparison runs and the exit
status is 0 whatever the file system contains. -/
theorem main_usage_exit (fs : FS) (argv : List String) :
    (argv.length ≠ 3 → main_run fs argv = ([usageMsg], 1)) ∧
    (argv.length = 3 →
      main_run fs argv = (loose_diff fs (argv.getD 1 "") (argv.getD 2 ""), 0)) ∧
    ((main_run fs argv).2 = 1 ↔ argv.length ≠ 3) := by
  rw [main_run]
  by_cases h : argv.length = 3 <;> simp [h]

/-- Witness for C6 at a one-element argv and a three-element argv. -/
theorem main_usage_exit_witness :
    main_run exampleFS ["ldiff.py"] = ([usageMsg], 1) ∧
    main_run exampleFS ["ldiff.py", "a.txt", "b.txt"] =
      (loose_diff exampleFS "a.txt" "b.txt", 0) :=
  ⟨(main_usage_exit exampleFS ["ldiff.py"]).1 (by decide),
   (main_usage_exit exampleFS ["ldiff.py", "a.txt", "b.txt"]).2.1 rfl⟩

/-! ### The comparison and diff branches -/

theorem loader_ok_of_some {fs : FS} {p c : String}
    (h : (read_file_content_loosely fs p).1 = some c) :
    ∃ d, fs p = .ok d ∧ pyRstrip d = c ∧
      (read_file_content_loosely fs p).2 = [] := by
  cases hp : fs p with
  | ok d =>
    rw [read_file_content_loosely, hp] at h ⊢
    exact ⟨d, rfl, by simpa using h, rfl⟩
  | notFound => rw [read_file_content_loosely, hp] at h; simp at h
  | otherError e => rw [read_file_content_loosely, hp] at h; simp at h

theorem loose_diff_ok (fs : FS) (p1 p2 d1 d2 : String)
    (h1 : fs p1 = .ok d1) (h2 : fs p2 = .ok d2) :
    loose_diff fs p1 p2 = banner p1 p2 ++
      (if pyRstrip d1 = pyRstrip d2 then [equivMsg]
       else diffWarnMsg :: unified_diff (pySplitlines (pyRstrip d1))
         (pySplitlines (pyRstrip d2)) ("a/" ++ p1) ("b/" ++ p2) 3) := by
  simp only [loose_diff, read_file_content_loosely, h1, h2]
  simp

/-- The shape of the output when both loads succeed and the normalized
contents differ. -/
theorem loose_diff_ne {fs : FS} {p1 p2 c1 c2 : String}
    (h1 : (read_file_content_loosely fs p1).1 = some c1)
    (h2 : (read_file_content_loosely fs p2).1 = some c2)
    (hne : c1 ≠ c2) :
    loose_diff fs p1 p2 = banner p1 p2 ++ diffWarnMsg ::
      unified_diff (pySplitlines c1) (pySplitlines c2)
        ("a/" ++ p1) ("b/" ++ p2) 3 := by
  obtain ⟨d1, hd1, hc1, -⟩ := loader_ok_of_some h1
  obtain ⟨d2, hd2, hc2, -⟩ := loader_ok_of_some h2
  subst hc1 hc2
  rw [loose_diff_ok fs p1 p2 d1 d2 hd1 hd2, if_neg hne]

/-- C1: with both loads successful, the program reports equivalence (the
whole output being the banner plus the single report line, no diff) if
and only if the two normalized contents are equal; when they are unequal
it prints the warning and proceeds to diff rendering. -/
theorem equivalence_iff_equal_normalized (fs : FS) (p1 p2 c1 c2 : String)
    (h1 : (read_file_content_loosely fs p1).1 = some c1)
    (h2 : (read_file_content_loosely fs p2).1 = some c2) :
    ((loose_diff fs p1 p2 = banner p1 p2 ++ [equivMsg]) ↔ c1 = c2) ∧
    (c1 ≠ c2 → loose_diff fs p1 p2 = banner p1 p2 ++ diffWarnMsg ::
      unified_diff (pySplitlines c1) (pySplitlines c2)
        ("a/" ++ p1) ("b/" ++ p2) 3) := by
  obtain ⟨d1, hd1, hc1, -⟩ := loader_ok_of_some h1
  obtain ⟨d2, hd2, hc2, -⟩ := loader_ok_of_some h2
  have hok := loose_diff_ok fs p1 p2 d1 d2 hd1 hd2
  rw [hc1, hc2] at hok
  constructor
  · constructor
    · intro heq
      by_contra hne
      rw [hok, if_neg hne] at heq
      have := List.append_cancel_left heq
      simp only [List.cons.injEq] at this
      exact absurd this.1 (by decide)
    · intro heq
      rw [hok, if_pos heq]
  · intro hne
    rw [hok, if_neg hne]

/-- Witness for C1 with the two example files (unequal contents): the
equivalence report is absent and the diff branch is taken; and with the
same file twice (equal contents): the report is exactly the banner plus
the equivalence line. -/
theorem equivalence_iff_equal_normalized_witness :
    loose_diff exampleFS "a.txt" "a.txt" = banner "a.txt" "a.txt" ++ [equivMsg] ∧
    loose_diff exampleFS "a.txt" "b.txt" = banner "a.txt" "b.txt" ++ diffWarnMsg ::
      unified_diff (pySplitlines (pyRstrip "foo\nbar\n"))
        (pySplitlines (pyRstrip "foo\nbaz\n")) ("a/" ++ "a.txt") ("b/" ++ "b.txt") 3 :=
  ⟨(equivalence_iff_equal_normalized exampleFS "a.txt" "a.txt"
      (pyRstrip "foo\nbar\n") (pyRstrip "foo\nbar\n") rfl rfl).1.mpr rfl,
   (equivalence_iff_equal_normalized exampleFS "a.txt" "b.txt"
      (pyRstrip "foo\nbar\n") (pyRstrip "foo\nbaz\n") rfl rfl).2 (by decide)⟩

/-- C7: whenever the normalized contents differ the program emits the
unified diff of the two splitlines sequences with fromfile a/&lt;path1&gt; and
tofile b/&lt;path2&gt; and 3 context lines, one printed line per diff line; on
the documented example the output carries the "--- a/a.txt" and
"+++ b/b.txt" headers, the @@ hunk marker, and the -bar / +baz lines. -/
theorem diff_rendering_on_difference :
    (∀ (fs : FS) (p1 p2 c1 c2 : String),
      (read_file_content_loosely fs p1).1 = some c1 →
      (read_file_content_loosely fs p2).1 = some c2 →
      c1 ≠ c2 →
      loose_diff fs p1 p2 = banner p1 p2 ++ diffWarnMsg ::
        unified_diff (pySplitlines c1) (pySplitlines c2)
          ("a/" ++ p1) ("b/" ++ p2) 3) ∧
    loose_diff exampleFS "a.txt" "b.txt" = banner "a.txt" "b.txt" ++
      [diffWarnMsg, "--- a/a.txt", "+++ b/b.txt", "@@ -1,2 +1,2 @@",
       " foo", "-bar", "+baz"] :=
  ⟨fun _ _ _ _ _ h1 h2 hne => loose_diff_ne h1 h2 hne, by decide⟩

/-- Witness for C7: the general clause applied to the example pair. -/
theorem diff_rendering_on_difference_witness :
    loose_diff exampleFS "a.txt" "b.txt" = banner "a.txt" "b.txt" ++ diffWarnMsg ::
      unified_diff (pySplitlines (pyRstrip "foo\nbar\n"))
        (pySplitlines (pyRstrip "foo\nbaz\n")) ("a/" ++ "a.txt") ("b/" ++ "b.txt") 3 :=
  diff_rendering_on_difference.1 exampleFS "a.txt" "b.txt"
    (pyRstrip "foo\nbar\n") (pyRstrip "foo\nbaz\n") rfl rfl (by decide)

/-! ### Line splitting -/

theorem splitlinesAux_cons_eq (c : Char) (rest acc : List Char)
    (hne : ∀ rest2, c = '\r' → rest = '\n' :: rest2 → False) :
    splitlinesAux (c :: rest) acc =
      if pyIsLineBreak c then acc.reverse :: splitlinesAux rest []
      else splitlinesAux rest (c :: acc) := by
  rw [splitlinesAux.eq_def]
  split
  · next heq => exact (List.cons_ne_nil c rest heq).elim
  · next rest2 heq2 =>
      injection heq2 with h1 h2
      exact (hne rest2 h1 h2).elim
  · next c2 rest2 heq3 =>
      injection heq3 with h1 h2
      subst h1; subst h2
      rfl

theorem splitlinesAux_cons_of_ne (c : Char) (rest acc : List Char)
    (hc : c ≠ '\r') :
    splitlinesAux (c :: rest) acc =
      if pyIsLineBreak c then acc.reverse :: splitlinesAux rest []
      else splitlinesAux rest (c :: acc) :=
  splitlinesAux_cons_eq c rest acc (fun _ h _ => hc h)

theorem splitlinesAux_append_lf (s : List Char) :
    ∀ (acc t : List Char), (∀ c ∈ s, pyIsLineBreak c = false) →
      splitlinesAux (s ++ '\n' :: t) acc =
        (acc.reverse ++ s) :: splitlinesAux t [] := by
  induction s with
  | nil =>
    intro acc t _
    rw [List.nil_append, splitlinesAux_cons_of_ne '\n' t acc (by decide),
      if_pos (by decide), List.append_nil]
  | cons c s ih =>
    intro acc t hs
    rw [List.forall_mem_cons] at hs
    have hcr : c ≠ '\r' := fun h => by rw [h] at hs; exact absurd hs.1 (by decide)
    rw [List.cons_append, splitlinesAux_cons_of_ne c _ acc hcr,
      if_neg (by rw [hs.1]; exact Bool.false_ne_true), ih (c :: acc) t hs.2,
      List.reverse_cons, List.append_assoc, List.singleton_append]

theorem splitlinesAux_append_crlf (s : List Char) :
    ∀ (acc t : List Char), (∀ c ∈ s, pyIsLineBreak c = false) →
      splitlinesAux (s ++ '\r' :: '\n' :: t) acc =
        (acc.reverse ++ s) :: splitlinesAux t [] := by
  induction s with
  | nil =>
    intro acc t _
    rw [List.nil_append, List.append_nil]
    rfl
  | cons c s ih =>
    intro acc t hs
    rw [List.forall_mem_cons] at hs
    have hcr : c ≠ '\r' := fun h => by rw [h] at hs; exact absurd hs.1 (by decide)
    rw [List.cons_append, splitlinesAux_cons_of_ne c _ acc hcr,
      if_neg (by rw [hs.1]; exact Bool.false_ne_true), ih (c :: acc) t hs.2,
      List.reverse_cons, List.append_assoc, List.singleton_append]

theorem splitlinesAux_no_breaks (s acc : List Char) :
    (∀ c ∈ acc, pyIsLineBreak c = false) →
    ∀ l ∈ splitlinesAux s acc, ∀ c ∈ l, pyIsLineBreak c = false := by
  induction s, acc using splitlinesAux.induct with
  | case1 acc hacc =>
    intro _ l hl
    rw [show splitlinesAux [] acc = if acc.isEmpty then [] else [acc.reverse]
        from rfl, if_pos hacc] at hl
    exact absurd hl (List.not_mem_nil l)
  | case2 acc hacc =>
    intro h l hl
    rw [show splitlinesAux [] acc = if acc.isEmpty then [] else [acc.reverse]
        from rfl, if_neg hacc, List.mem_singleton] at hl
    subst hl
    intro c hc
    exact h c (List.mem_reverse.mp hc)
  | case3 rest acc ih =>
    intro h l hl
    rw [show splitlinesAux ('\r' :: '\n' :: rest) acc =
        acc.reverse :: splitlinesAux rest [] from rfl] at hl
    rcases List.mem_cons.mp hl with hl | hl
    · subst hl
      intro c hc
      exact h c (List.mem_reverse.mp hc)
    · exact ih (fun c hc => absurd hc (List.not_mem_nil c)) l hl
  | case4 c rest acc hne hbrk ih =>
    intro h l hl
    rw [splitlinesAux_cons_eq c rest acc hne, if_pos hbrk] at hl
    rcases List.mem_cons.mp hl with hl | hl
    · subst hl
      intro x hx
      exact h x (List.mem_reverse.mp hx)
    · exact ih (fun x hx => absurd hx (List.not_mem_nil x)) l hl
  | case5 c rest acc hne hbrk ih =>
    intro h l hl
    rw [splitlinesAux_cons_eq c rest acc hne, if_neg hbrk] at hl
    refine ih ?_ l hl
    intro x hx
    rcases List.mem_cons.mp hx with hx | hx
    · subst hx
      exact Bool.eq_false_iff.mpr hbrk
    · exact h x hx

/-- C8: splitlines recognizes LF and CR LF as line boundaries and
discards them, and no produced line contains any line-boundary
character. -/
theorem splitlines_boundary_rule :
    (∀ s t : String, (∀ c ∈ s.data, pyIsLineBreak c = false) →
      pySplitlines (s ++ "\n" ++ t) = s :: pySplitlines t) ∧
    (∀ s t : String, (∀ c ∈ s.data, pyIsLineBreak c = false) →
      pySplitlines (s ++ "\r\n" ++ t) = s :: pySplitlines t) ∧
    (∀ u : String, ∀ l ∈ pySplitlines u, ∀ c ∈ l.data,
      pyIsLineBreak c = false) := by
  refine ⟨fun s t hs => ?_, fun s t hs => ?_, fun u l hl c hc => ?_⟩
  · show (splitlinesAux (s ++ "\n" ++ t).data []).map String.mk = _
    rw [String.data_append, String.data_append,
      show ("\n" : String).data = ['\n'] from rfl, List.append_assoc,
      List.singleton_append, splitlinesAux_append_lf s.data [] t.data hs]
    rfl
  · show (splitlinesAux (s ++ "\r\n" ++ t).data []).map String.mk = _
    rw [String.data_append, String.data_append,
      show ("\r\n" : String).data = ['\r', '\n'] from rfl, List.append_assoc,
      show ['\r', '\n'] ++ t.data = '\r' :: '\n' :: t.data from rfl,
      splitlinesAux_append_crlf s.data [] t.data hs]
    rfl
  · obtain ⟨l0, hl0, rfl⟩ := List.mem_map.mp hl
    exact splitlinesAux_no_breaks u.data []
      (fun x hx => absurd hx (List.not_mem_nil x)) l0 hl0 c hc

/-- Witness for C8: an LF split, a CR LF split, and the absence of
boundary characters in a produced line. -/
theorem splitlines_boundary_rule_witness :
    pySplitlines ("ab" ++ "\n" ++ "cd") = "ab" :: pySplitlines "cd" ∧
    pySplitlines ("ab" ++ "\r\n" ++ "cd") = "ab" :: pySplitlines "cd" ∧
    pyIsLineBreak 'x' = false :=
  ⟨splitlines_boundary_rule.1 "ab" "cd" (by decide),
   splitlines_boundary_rule.2.1 "ab" "cd" (by decide),
   splitlines_boundary_rule.2.2 "x\ny" "x" (by decide) 'x' (by decide)⟩

end LDiff

/-!
Facts about SequenceMatcher on two equal sequences, used to show that the
unified diff of equal line lists is empty. `np l t` says position t
survives the autojunk filter (its element is indexed in b2j); `runLen l t`
is the length of the maximal run of such positions ending at t.
-/

namespace Difflib

variable {α : Type} [DecidableEq α] [Inhabited α]

/-- Position t's element is present in the b2j index (not popular). -/
def np (l : List α) (t : Nat) : Bool :=
  decide (t ∈ b2j l (l.getD t default))

/-- Length of the maximal run of indexed (non-popular) positions ending
at t. -/
def runLen (l : List α) : Nat → Nat
  | 0 => if np l 0 then 1 else 0
  | t + 1 => if np l (t + 1) then runLen l t + 1 else 0

theorem mem_b2j_lt {l : List α} {x : α} {j : Nat} (h : j ∈ b2j l x) :
    j < l.length ∧ l.getD j default = x := by
  by_cases hc : 200 ≤ l.length ∧ l.length / 100 + 1 < (b2jRaw l x).length
  · simp only [b2j] at h
    rw [if_pos hc] at h
    exact absurd h (List.not_mem_nil j)
  · simp only [b2j] at h
    rw [if_neg hc, b2jRaw, List.mem_filter, List.mem_range] at h
    exact ⟨h.1, of_decide_eq_true h.2⟩

theorem self_mem_b2jRaw {l : List α} {r : Nat} (h : r < l.length) :
    r ∈ b2jRaw l (l.getD r default) := by
  rw [b2jRaw, List.mem_filter, List.mem_range]
  exact ⟨h, decide_eq_true rfl⟩

theorem mem_b2j_np {l : List α} {r j : Nat}
    (h : j ∈ b2j l (l.getD r default)) : np l j = true := by
  have hj := mem_b2j_lt h
  rw [np, decide_eq_true_iff, hj.2]
  exact h

theorem b2j_eq_nil_of_not_np {l : List α} {r : Nat} (hr : r < l.length)
    (h : ¬ np l r = true) : b2j l (l.getD r default) = [] := by
  by_cases hc : 200 ≤ l.length ∧
      l.length / 100 + 1 < (b2jRaw l (l.getD r default)).length
  · simp only [b2j]
    rw [if_pos hc]
  · exfalso
    apply h
    rw [np, decide_eq_true_iff]
    simp only [b2j]
    rw [if_neg hc]
    exact self_mem_b2jRaw hr

theorem np_of_b2j_ne_nil {l : List α} {r : Nat} (hr : r < l.length)
    (h : b2j l (l.getD r default) ≠ []) : np l r = true := by
  by_contra hn
  exact h (b2j_eq_nil_of_not_np hr hn)

theorem runLen_le (l : List α) (t : Nat) : runLen l t ≤ t + 1 := by
  induction t with
  | zero => rw [runLen]; split <;> omega
  | succ t ih => rw [runLen]; split <;> omega

theorem runLen_of_np {l : List α} {t : Nat} (h : np l t = true) :
    runLen l t = (if t = 0 then 0 else runLen l (t - 1)) + 1 := by
  cases t with
  | zero => rw [runLen, if_pos h]; rfl
  | succ t => rw [runLen, if_pos h]; simp

theorem runLen_eq_zero_of_not_np {l : List α} {t : Nat}
    (h : ¬ np l t = true) : runLen l t = 0 := by
  cases t with
  | zero => rw [runLen, if_neg h]
  | succ t => rw [runLen, if_neg h]

theorem b2j_sorted (l : List α) (x : α) : (b2j l x).Pairwise (· < ·) := by
  by_cases hc : 200 ≤ l.length ∧ l.length / 100 + 1 < (b2jRaw l x).length
  · simp only [b2j]
    rw [if_pos hc]
    exact List.Pairwise.nil
  · simp only [b2j]
    rw [if_neg hc, b2jRaw]
    exact List.Pairwise.sublist (List.filter_sublist _)
      (List.pairwise_lt_range l.length)

end Difflib

namespace Difflib

variable {α : Type} [DecidableEq α] [Inhabited α]

/-- Invariant of the inner dictionary loop of find_longest_match when run
on two copies of the same sequence over the full ranges: the best block
stays on the diagonal, the new row is bounded by the run lengths, the row
diagonal entry is exact, and besti + bestsize stays within the length. -/
theorem fldmInner_inv (l : List α) (r : Nat) (hrn : r < l.length)
    (j2len : Nat → Nat)
    (hold1 : ∀ j, j2len j ≤ runLen l j)
    (hold2 : ∀ j, j2len j ≤ if r = 0 then 0 else runLen l (r - 1))
    (hdiag : (if r = 0 then 0 else j2len (r - 1)) =
      if r = 0 then 0 else runLen l (r - 1)) :
    ∀ (ks : List Nat) (newj2len : Nat → Nat) (best : Nat × Nat × Nat),
    (∀ j ∈ ks, j ∈ b2j l (l.getD r default)) →
    ks.Pairwise (· < ·) →
    best.1 = best.2.1 →
    (∀ t, t < r → runLen l t ≤ best.2.2) →
    (∀ j, newj2len j ≤ runLen l j) →
    (∀ j, newj2len j ≤ runLen l r) →
    (r ∈ ks ∨ (runLen l r ≤ best.2.2 ∧ newj2len r = runLen l r)) →
    best.1 + best.2.2 ≤ l.length →
    ∃ nj bst, fldmInner 0 l.length r j2len ks newj2len best = (nj, bst) ∧
      bst.1 = bst.2.1 ∧
      (∀ t, t < r + 1 → runLen l t ≤ bst.2.2) ∧
      (∀ j, nj j ≤ runLen l j) ∧
      (∀ j, nj j ≤ runLen l r) ∧
      nj r = runLen l r ∧
      bst.1 + bst.2.2 ≤ l.length := by
  intro ks
  induction ks with
  | nil =>
    intro newj2len best _ _ hb1 hb2 hn1 hn2 hs5 hb3
    have hd2 : runLen l r ≤ best.2.2 ∧ newj2len r = runLen l r := by
      rcases hs5 with h | h
      · exact absurd h (List.not_mem_nil r)
      · exact h
    refine ⟨newj2len, best, rfl, hb1, ?_, hn1, hn2, hd2.2, hb3⟩
    intro t ht
    by_cases htr : t < r
    · exact hb2 t htr
    · have : t = r := by omega
      subst this
      exact hd2.1
  | cons j js ih =>
    intro newj2len best hk1 hk2 hb1 hb2 hn1 hn2 hs5 hb3
    have hjmem : j ∈ b2j l (l.getD r default) := hk1 j (List.mem_cons_self j js)
    have hjn : j < l.length := (mem_b2j_lt hjmem).1
    have hnpj : np l j = true := mem_b2j_np hjmem
    have hnpr : np l r = true := np_of_b2j_ne_nil hrn (List.ne_nil_of_mem hjmem)
    have hrunr : runLen l r = (if r = 0 then 0 else runLen l (r - 1)) + 1 :=
      runLen_of_np hnpr
    have hrunj : runLen l j = (if j = 0 then 0 else runLen l (j - 1)) + 1 :=
      runLen_of_np hnpj
    have hKj : (if j = 0 then 0 else j2len (j - 1)) + 1 ≤ runLen l j := by
      rw [hrunj]
      by_cases hj0 : j = 0
      · rw [if_pos hj0, if_pos hj0]
      · rw [if_neg hj0, if_neg hj0]
        exact Nat.succ_le_succ (hold1 (j - 1))
    have hKr : (if j = 0 then 0 else j2len (j - 1)) + 1 ≤ runLen l r := by
      rw [hrunr]
      by_cases hj0 : j = 0
      · rw [if_pos hj0]
        omega
      · rw [if_neg hj0]
        exact Nat.succ_le_succ (hold2 (j - 1))
    have hKreq : j = r → (if j = 0 then 0 else j2len (j - 1)) + 1 = runLen l r := by
      intro hjr
      subst hjr
      rw [hdiag, ← hrunr]
    have hstep : fldmInner 0 l.length r j2len (j :: js) newj2len best =
        if j < 0 then fldmInner 0 l.length r j2len js newj2len best
        else if l.length ≤ j then (newj2len, best)
        else fldmInner 0 l.length r j2len js
          (fun x => if x = j then (if j = 0 then 0 else j2len (j - 1)) + 1
            else newj2len x)
          (if best.2.2 < (if j = 0 then 0 else j2len (j - 1)) + 1 then
            (r + 1 - ((if j = 0 then 0 else j2len (j - 1)) + 1),
             j + 1 - ((if j = 0 then 0 else j2len (j - 1)) + 1),
             (if j = 0 then 0 else j2len (j - 1)) + 1)
           else best) := rfl
    rw [hstep, if_neg (Nat.not_lt_zero j), if_neg (Nat.not_le.mpr hjn)]
    by_cases hup : best.2.2 < (if j = 0 then 0 else j2len (j - 1)) + 1
    · rw [if_pos hup]
      have hjr : j = r := by
        rcases Nat.lt_trichotomy j r with h | h | h
        · have := hb2 j h
          omega
        · exact h
        · exfalso
          have hrb : runLen l r ≤ best.2.2 := by
            rcases hs5 with hin | hd
            · rcases List.mem_cons.mp hin with hrj | hin
              · omega
              · have := (List.pairwise_cons.mp hk2).1 r hin
                omega
            · exact hd.1
          omega
      subst hjr
      have hKexact : (if j = 0 then 0 else j2len (j - 1)) + 1 = runLen l j :=
        hKreq rfl
      refine ih _ _ (fun x hx => hk1 x (List.mem_cons_of_mem j hx))
        (List.pairwise_cons.mp hk2).2 rfl ?_ ?_ ?_ ?_ ?_
      · intro t ht
        have := hb2 t ht
        show runLen l t ≤ (if j = 0 then 0 else j2len (j - 1)) + 1
        omega
      · intro x
        by_cases hx : x = j
        · rw [if_pos hx, hx]
          exact hKj
        · rw [if_neg hx]
          exact hn1 x
      · intro x
        by_cases hx : x = j
        · rw [if_pos hx]
          exact hKr
        · rw [if_neg hx]
          exact hn2 x
      · refine Or.inr ⟨le_of_eq hKexact.symm, ?_⟩
        rw [if_pos rfl]
        exact hKexact
      · have h1 := runLen_le l j
        show j + 1 - ((if j = 0 then 0 else j2len (j - 1)) + 1) +
          ((if j = 0 then 0 else j2len (j - 1)) + 1) ≤ l.length
        omega
    · rw [if_neg hup]
      refine ih _ _ (fun x hx => hk1 x (List.mem_cons_of_mem j hx))
        (List.pairwise_cons.mp hk2).2 hb1 hb2 ?_ ?_ ?_ hb3
      · intro x
        by_cases hx : x = j
        · rw [if_pos hx, hx]
          exact hKj
        · rw [if_neg hx]
          exact hn1 x
      · intro x
        by_cases hx : x = j
        · rw [if_pos hx]
          exact hKr
        · rw [if_neg hx]
          exact hn2 x
      · rcases hs5 with hin | hd
        · rcases List.mem_cons.mp hin with hrj | hin
          · refine Or.inr ⟨?_, ?_⟩
            · have := hKreq hrj.symm
              omega
            · rw [hrj, if_pos rfl]
              have h := hKreq hrj.symm
              rw [hrj] at h
              exact h
          · exact Or.inl hin
        · refine Or.inr ⟨hd.1, ?_⟩
          by_cases hrj : r = j
          · rw [if_pos hrj]
            exact hKreq hrj.symm
          · rw [if_neg hrj]
            exact hd.2

end Difflib

namespace Difflib

variable {α : Type} [DecidableEq α] [Inhabited α]

/-- Invariant of the outer row loop on two copies of the same sequence:
the final best block is on the diagonal and besti + bestsize stays within
the length. -/
theorem fldmRows_inv (l : List α) :
    ∀ (m r : Nat), r + m = l.length →
    ∀ (j2len : Nat → Nat) (best : Nat × Nat × Nat),
    (∀ j, j2len j ≤ runLen l j) →
    (∀ j, j2len j ≤ if r = 0 then 0 else runLen l (r - 1)) →
    ((if r = 0 then 0 else j2len (r - 1)) =
      if r = 0 then 0 else runLen l (r - 1)) →
    best.1 = best.2.1 →
    (∀ t, t < r → runLen l t ≤ best.2.2) →
    best.1 + best.2.2 ≤ l.length →
    (fldmRows l (b2j l) 0 l.length (List.range' r m) j2len best).1 =
      (fldmRows l (b2j l) 0 l.length (List.range' r m) j2len best).2.1 ∧
    (fldmRows l (b2j l) 0 l.length (List.range' r m) j2len best).1 +
      (fldmRows l (b2j l) 0 l.length (List.range' r m) j2len best).2.2 ≤
      l.length := by
  intro m
  induction m with
  | zero =>
    intro r _ j2len best _ _ _ hb1 _ hb3
    exact ⟨hb1, hb3⟩
  | succ m ih =>
    intro r h j2len best hold1 hold2 hdiag hb1 hb2 hb3
    have hrn : r < l.length := by omega
    have hS5init : r ∈ b2j l (l.getD r default) ∨
        (runLen l r ≤ best.2.2 ∧ (fun _ : Nat => 0) r = runLen l r) := by
      by_cases hnp : np l r = true
      · exact Or.inl (of_decide_eq_true hnp)
      · have h0 := runLen_eq_zero_of_not_np hnp
        exact Or.inr ⟨by omega, h0.symm⟩
    obtain ⟨nj, bst, heq, hS1, hS2, hS3, hS4, hS5, hS6⟩ :=
      fldmInner_inv l r hrn j2len hold1 hold2 hdiag
        (b2j l (l.getD r default)) (fun _ => 0) best
        (fun _ hx => hx) (b2j_sorted l _) hb1 hb2
        (fun _ => Nat.zero_le _) (fun _ => Nat.zero_le _) hS5init hb3
    rw [List.range'_succ]
    have hstep : fldmRows l (b2j l) 0 l.length (r :: List.range' (r + 1) m)
        j2len best =
        fldmRows l (b2j l) 0 l.length (List.range' (r + 1) m)
          (fldmInner 0 l.length r j2len (b2j l (l.getD r default))
            (fun _ => 0) best).1
          (fldmInner 0 l.length r j2len (b2j l (l.getD r default))
            (fun _ => 0) best).2 := rfl
    rw [hstep, heq]
    refine ih (r + 1) (by omega) nj bst hS3 ?_ ?_ hS1 hS2 hS6
    · intro j
      rw [if_neg (Nat.succ_ne_zero r), Nat.add_sub_cancel]
      exact hS4 j
    · rw [if_neg (Nat.succ_ne_zero r), if_neg (Nat.succ_ne_zero r),
        Nat.add_sub_cancel]
      exact hS5

/-- The left extension loop on two copies of the same sequence, started
on the diagonal with fuel = besti, slides the block to the left edge. -/
theorem extendLeft_self (l : List α) :
    ∀ (i s : Nat), extendLeft l l 0 0 i i i s = (0, 0, s + i) := by
  intro i
  induction i with
  | zero => intro s; rfl
  | succ i ih =>
    intro s
    have hstep : extendLeft l l 0 0 (i + 1) (i + 1) (i + 1) s =
        if 0 < i + 1 ∧ 0 < i + 1 ∧
            l.getD (i + 1 - 1) default = l.getD (i + 1 - 1) default then
          extendLeft l l 0 0 i (i + 1 - 1) (i + 1 - 1) (s + 1)
        else (i + 1, i + 1, s) := rfl
    rw [hstep, if_pos ⟨Nat.succ_pos i, Nat.succ_pos i, rfl⟩,
      Nat.add_sub_cancel, ih (s + 1)]
    have : s + 1 + i = s + (i + 1) := by omega
    rw [this]

/-- The right extension loop on two copies of the same sequence, started
at the left edge with fuel = length - bestsize, grows the block to the
whole sequence. -/
theorem extendRight_self (l : List α) :
    ∀ (fuel m : Nat), fuel = l.length - m → m ≤ l.length →
    extendRight l l l.length l.length fuel 0 0 m = (0, 0, l.length) := by
  intro fuel
  induction fuel with
  | zero =>
    intro m hf hm
    have : m = l.length := by omega
    subst this
    rfl
  | succ fuel ih =>
    intro m hf hm
    have hmn : m < l.length := by omega
    have hstep : extendRight l l l.length l.length (fuel + 1) 0 0 m =
        if 0 + m < l.length ∧ 0 + m < l.length ∧
            l.getD (0 + m) default = l.getD (0 + m) default then
          extendRight l l l.length l.length fuel 0 0 (m + 1)
        else (0, 0, m) := rfl
    rw [hstep, if_pos ⟨by omega, by omega, rfl⟩]
    exact ih (m + 1) (by omega) (by omega)

/-- The extension passes applied to any diagonal in-range result of the
dictionary loop produce the whole-sequence block. -/
theorem flm_post (l : List α) (d : Nat × Nat × Nat) (hdg : d.1 = d.2.1)
    (hsum : d.1 + d.2.2 ≤ l.length) :
    extendRight l l l.length l.length
      (l.length - (extendLeft l l 0 0 d.1 d.1 d.2.1 d.2.2).2.2)
      (extendLeft l l 0 0 d.1 d.1 d.2.1 d.2.2).1
      (extendLeft l l 0 0 d.1 d.1 d.2.1 d.2.2).2.1
      (extendLeft l l 0 0 d.1 d.1 d.2.1 d.2.2).2.2 = (0, 0, l.length) := by
  rcases d with ⟨di, dj, ds⟩
  simp only at hdg hsum
  subst hdg
  rw [extendLeft_self l di ds]
  exact extendRight_self l (l.length - (ds + di)) (ds + di) rfl (by omega)

/-- find_longest_match over the full ranges of two copies of the same
sequence returns the whole sequence as the matching block. -/
theorem find_longest_match_self (l : List α) :
    find_longest_match l l (b2j l) 0 l.length 0 l.length =
      (0, 0, l.length) := by
  have hrows := fldmRows_inv l l.length 0 (Nat.zero_add _) (fun _ => 0)
    (0, 0, 0) (fun _ => Nat.zero_le _) (fun _ => Nat.zero_le _) rfl rfl
    (fun t ht => absurd ht (Nat.not_lt_zero t)) (Nat.zero_le _)
  exact flm_post l
    (fldmRows l (b2j l) 0 l.length (List.range' 0 (l.length - 0))
      (fun _ => 0) (0, 0, 0)) hrows.1 hrows.2

end Difflib

namespace Difflib

variable {α : Type} [DecidableEq α] [Inhabited α]

theorem matchingBlocksRec_self (l : List α) :
    matchingBlocksRec l l (b2j l) (l.length + 1) 0 l.length 0 l.length =
      if l.length = 0 then [] else [(0, 0, l.length)] := by
  have hunf : matchingBlocksRec l l (b2j l) (l.length + 1) 0 l.length 0
      l.length =
      (let m := find_longest_match l l (b2j l) 0 l.length 0 l.length
       if m.2.2 = 0 then []
       else
        (if 0 < m.1 ∧ 0 < m.2.1 then
          matchingBlocksRec l l (b2j l) l.length 0 m.1 0 m.2.1 else []) ++
        [(m.1, m.2.1, m.2.2)] ++
        (if m.1 + m.2.2 < l.length ∧ m.2.1 + m.2.2 < l.length then
          matchingBlocksRec l l (b2j l) l.length (m.1 + m.2.2) l.length
            (m.2.1 + m.2.2) l.length else [])) := rfl
  rw [hunf, find_longest_match_self l]
  show (if l.length = 0 then ([] : List (Nat × Nat × Nat))
      else
        (if 0 < 0 ∧ 0 < 0 then
          matchingBlocksRec l l (b2j l) l.length 0 0 0 0 else []) ++
        [(0, 0, l.length)] ++
        (if 0 + l.length < l.length ∧ 0 + l.length < l.length then
          matchingBlocksRec l l (b2j l) l.length (0 + l.length) l.length
            (0 + l.length) l.length else [])) =
    if l.length = 0 then [] else [(0, 0, l.length)]
  by_cases h0 : l.length = 0
  · rw [if_pos h0, if_pos h0]
  · rw [if_neg h0, if_neg h0, if_neg (by decide : ¬(0 < 0 ∧ 0 < 0)),
      if_neg (by omega : ¬(0 + l.length < l.length ∧
        0 + l.length < l.length))]
    simp

theorem get_matching_blocks_self (l : List α) :
    get_matching_blocks l l =
      if l.length = 0 then [(0, 0, 0)]
      else [(0, 0, l.length), (l.length, l.length, 0)] := by
  have hunf : get_matching_blocks l l =
      coalesceBlocks (0, 0, 0)
        (matchingBlocksRec l l (b2j l) (l.length + 1) 0 l.length 0 l.length) ++
      [(l.length, l.length, 0)] := rfl
  rw [hunf, matchingBlocksRec_self l]
  by_cases h0 : l.length = 0
  · rw [if_pos h0, if_pos h0, h0]
    rfl
  · rw [if_neg h0, if_neg h0]
    have hc : coalesceBlocks (0, 0, 0) [(0, 0, l.length)] =
        coalesceBlocks (0, 0, 0 + l.length) [] := rfl
    have hc2 : coalesceBlocks (0, 0, 0 + l.length)
        ([] : List (Nat × Nat × Nat)) =
        if 0 + l.length ≠ 0 then [(0, 0, 0 + l.length)] else [] := rfl
    rw [hc, hc2, Nat.zero_add, if_pos h0]
    rfl

theorem get_opcodes_self (l : List α) :
    get_opcodes l l =
      if l.length = 0 then []
      else [(Tag.equal, 0, l.length, 0, l.length)] := by
  rw [get_opcodes, get_matching_blocks_self]
  by_cases h0 : l.length = 0
  · rw [if_pos h0, if_pos h0]
    rfl
  · rw [if_neg h0, if_neg h0]
    have hstep : opcodesLoop 0 0 [(0, 0, l.length), (l.length, l.length, 0)] =
        (if l.length ≠ 0 then
          [(Tag.equal, 0, 0 + l.length, 0, 0 + l.length)] else []) ++
        opcodesLoop (0 + l.length) (0 + l.length) [(l.length, l.length, 0)] := rfl
    rw [hstep, if_pos h0, Nat.zero_add]
    have hstep2 : opcodesLoop l.length l.length [(l.length, l.length, 0)] =
        (if l.length < l.length ∧ l.length < l.length then
          [(Tag.replace, l.length, l.length, l.length, l.length)]
         else if l.length < l.length then
          [(Tag.delete, l.length, l.length, l.length, l.length)]
         else if l.length < l.length then
          [(Tag.insert, l.length, l.length, l.length, l.length)]
         else []) ++
        (if (0 : Nat) ≠ 0 then
          [(Tag.equal, l.length, l.length + 0, l.length, l.length + 0)]
         else []) ++
        opcodesLoop (l.length + 0) (l.length + 0) [] := rfl
    rw [hstep2, if_neg (by omega : ¬(l.length < l.length ∧
        l.length < l.length)), if_neg (by omega : ¬ l.length < l.length),
      if_neg (by omega : ¬ l.length < l.length),
      if_neg (by omega : ¬ (0 : Nat) ≠ 0)]
    have hnil : opcodesLoop (l.length + 0) (l.length + 0)
        ([] : List (Nat × Nat × Nat)) = [] := rfl
    rw [hnil]
    simp

theorem groupLoop_cons_not_big (n : Nat) (tag : Tag) (i1 i2 j1 j2 : Nat)
    (rest group : List Opcode)
    (h : ¬(tag = Tag.equal ∧ n + n < i2 - i1)) :
    groupLoop n ((tag, i1, i2, j1, j2) :: rest) group =
      groupLoop n rest (group ++ [(tag, i1, i2, j1, j2)]) := by
  have hunf : groupLoop n ((tag, i1, i2, j1, j2) :: rest) group =
      if tag = Tag.equal ∧ n + n < i2 - i1 then
        (group ++ [(Tag.equal, i1, min i2 (i1 + n), j1, min j2 (j1 + n))]) ::
          groupLoop n rest
            [(Tag.equal, max i1 (i2 - n), i2, max j1 (j2 - n), j2)]
      else groupLoop n rest (group ++ [(tag, i1, i2, j1, j2)]) := rfl
  rw [hunf, if_neg h]

theorem groupLoop_nil_single_equal (n : Nat) (i1 i2 j1 j2 : Nat) :
    groupLoop n [] [(Tag.equal, i1, i2, j1, j2)] = [] := by
  have hunf : groupLoop n [] [(Tag.equal, i1, i2, j1, j2)] =
      if [(Tag.equal, i1, i2, j1, j2)] ≠ ([] : List Opcode) ∧
          ¬(([(Tag.equal, i1, i2, j1, j2)] : List Opcode).length = 1 ∧
            (([(Tag.equal, i1, i2, j1, j2)] : List Opcode).headD default).1 =
              Tag.equal)
      then [[(Tag.equal, i1, i2, j1, j2)]] else [] := rfl
  rw [hunf, if_neg]
  simp

theorem get_grouped_opcodes_self (l : List α) (n : Nat) :
    get_grouped_opcodes l l n = [] := by
  have hunf : get_grouped_opcodes l l n =
      groupLoop n (adjustLast n (adjustFirst n
        (if (get_opcodes l l).isEmpty then [(Tag.equal, 0, 1, 0, 1)]
         else get_opcodes l l))) [] := rfl
  rw [hunf, get_opcodes_self l]
  by_cases h0 : l.length = 0
  · rw [if_pos h0]
    show groupLoop n (adjustLast n (adjustFirst n
      [(Tag.equal, 0, 1, 0, 1)])) [] = []
    have ha1 : adjustFirst n [(Tag.equal, 0, 1, 0, 1)] =
        [(Tag.equal, max 0 (1 - n), 1, max 0 (1 - n), 1)] := rfl
    have ha2 : adjustLast n [(Tag.equal, max 0 (1 - n), 1, max 0 (1 - n), 1)] =
        [(Tag.equal, max 0 (1 - n), min 1 (max 0 (1 - n) + n),
          max 0 (1 - n), min 1 (max 0 (1 - n) + n))] := rfl
    rw [ha1, ha2, groupLoop_cons_not_big n Tag.equal _ _ _ _ [] []
      (fun hc => absurd hc.2 (by omega)), List.nil_append,
      groupLoop_nil_single_equal]
  · rw [if_neg h0]
    show groupLoop n (adjustLast n (adjustFirst n
      [(Tag.equal, 0, l.length, 0, l.length)])) [] = []
    have ha1 : adjustFirst n [(Tag.equal, 0, l.length, 0, l.length)] =
        [(Tag.equal, max 0 (l.length - n), l.length,
          max 0 (l.length - n), l.length)] := rfl
    have ha2 : adjustLast n [(Tag.equal, max 0 (l.length - n), l.length,
        max 0 (l.length - n), l.length)] =
        [(Tag.equal, max 0 (l.length - n),
          min l.length (max 0 (l.length - n) + n),
          max 0 (l.length - n),
          min l.length (max 0 (l.length - n) + n))] := rfl
    rw [ha1, ha2, groupLoop_cons_not_big n Tag.equal _ _ _ _ [] []
      (fun hc => absurd hc.2 (by omega)), List.nil_append,
      groupLoop_nil_single_equal]

end Difflib

namespace LDiff

open Difflib

/-- The unified diff of two equal line sequences is empty: there are no
grouped opcodes, so not even the file headers are yielded. -/
theorem unified_diff_self_empty (a : List String) (f t : String) (n : Nat) :
    unified_diff a a f t n = [] := by
  unfold unified_diff
  rw [get_grouped_opcodes_self a n]

/-- C9: files whose normalized contents differ as strings but split into
the same line sequence (for example CR LF against LF separators) exist,
and for every such pair the program prints the difference warning and
then zero unified-diff lines. -/
theorem equal_lines_warn_without_diff :
    ((read_file_content_loosely crlfFS "a.txt").1 = some "a\r\nb" ∧
     (read_file_content_loosely crlfFS "b.txt").1 = some "a\nb" ∧
     "a\r\nb" ≠ "a\nb" ∧
     pySplitlines "a\r\nb" = pySplitlines "a\nb" ∧
     loose_diff crlfFS "a.txt" "b.txt" =
       banner "a.txt" "b.txt" ++ [diffWarnMsg]) ∧
    (∀ (fs : FS) (p1 p2 c1 c2 : String),
      (read_file_content_loosely fs p1).1 = some c1 →
      (read_file_content_loosely fs p2).1 = some c2 →
      c1 ≠ c2 → pySplitlines c1 = pySplitlines c2 →
      loose_diff fs p1 p2 = banner p1 p2 ++ [diffWarnMsg]) := by
  constructor
  · exact ⟨rfl, rfl, by decide, by decide, by decide⟩
  · intro fs p1 p2 c1 c2 h1 h2 hne hsplit
    rw [loose_diff_ne h1 h2 hne, hsplit, unified_diff_self_empty]

/-- Witness for C9: the general clause applied to the CR LF / LF pair. -/
theorem equal_lines_warn_without_diff_witness :
    loose_diff crlfFS "a.txt" "b.txt" =
      banner "a.txt" "b.txt" ++ [diffWarnMsg] :=
  equal_lines_warn_without_diff.2 crlfFS "a.txt" "b.txt" "a\r\nb" "a\nb"
    rfl rfl (by decide) (by decide)

end LDiff
